import Mathlib

/-!
Verification of the asymptotic-analysis core of Complexity_Compass
(src/Complexity_Compass.py).

The core consists of three functions built over the sympy symbolic engine:

* `parse_function` (lines 19-24): wraps `sp.sympify` in a try/except and
  returns `None` on any failure;
* `dominant_term` (lines 27-50): normalizes an expression, and when it is a
  sum, scans the ordered terms keeping a running dominant candidate, comparing
  by a symbolic limit with a numeric fallback at n = 10^6;
* `check_asymptotic_definitions` (lines 52-67): computes the limit L of the
  simplified ratio f/g at n → ∞ and classifies into O / Ω / Θ flags, with an
  all-false "undefined" fallback when the computation raises.

The sympy operations themselves are external library code (the spec, section 2,
declares the symbolic engine an external collaborator specified only by
interface).  We therefore embed them as a structure `SymEngine` of abstract
operations; operations the Python code calls inside a `try` block are fallible
(`PyResult`).  The three core functions are translated literally over that
interface, and the claims are proved for every engine, instantiated on small
concrete engines (`toyE`, `powE`) for witnesses.
-/

/-- A Python computation that may raise an exception of some type (the code
uses bare `except:` everywhere, so the exception value is irrelevant). -/
abbrev PyResult (α : Type) : Type := Except Unit α

/-- The observations the core makes of a sympy limit value `L`:
`eqZero` is the result of the structural comparison `L == 0`, `isInfinite` is
the truthiness of the attribute `L.is_infinite` (sympy's `None`, meaning
unknown, is falsy, hence `false` here), and `str` is `str(L)`.
A sympy value structurally equal to the integer 0 has `is_infinite` equal to
`False`, which `zero_not_infinite` records. -/
structure LimitVal where
  eqZero : Bool
  isInfinite : Bool
  str : String
  zero_not_infinite : eqZero = true → isInfinite = false

deriving instance DecidableEq for Except

instance : DecidableEq LimitVal := fun a b =>
  match a, b with
  | ⟨e1, i1, s1, _⟩, ⟨e2, i2, s2, _⟩ =>
    if h : e1 = e2 ∧ i1 = i2 ∧ s1 = s2 then
      isTrue (by obtain ⟨h1, h2, h3⟩ := h; subst h1; subst h2; subst h3; rfl)
    else
      isFalse (by intro hab; apply h; cases hab; exact ⟨rfl, rfl, rfl⟩)

/-- The dictionary returned by `check_asymptotic_definitions`. -/
structure ClassificationResult where
  O : Bool
  Omega : Bool
  Theta : Bool
  c_O : String
  c_Omega : String
  n0 : String
deriving DecidableEq, Repr

/-- The interface of the external symbolic engine (sympy), as used by the
core.  `α` is the type of symbolic expressions.  Operations invoked by the
Python code inside a `try` block are fallible (`PyResult`); the others are
called unprotected and are total.

* `simplify` models `sp.simplify` at its unprotected call sites
  (lines 28, 30, 50);
* `expand` models `sp.expand` (line 28);
* `isAdd` models `isinstance(f, sp.Add)` (line 29);
* `asOrderedTerms` models `f.as_ordered_terms()` (line 32);
* `simplifyDiv a b` models `sp.simplify(a / b)` at its protected call sites
  (lines 37, 54), which may raise;
* `limit` models `sp.limit(e, n, sp.oo)` (lines 37, 55), which may raise;
* `evalfMillion t` models `float(t.subs(n, 10**6).evalf())` (lines 42-44),
  which may raise;
* `sympify` models `sp.sympify(func_str, locals=allowed_funcs)` (line 21),
  which may raise;
* `addTermsNonempty` records the sympy guarantee that an `Add` node has at
  least two arguments, so `as_ordered_terms` of an `Add` is never empty
  (the code indexes `terms[0]` without a guard). -/
structure SymEngine (α : Type) where
  simplify : α → α
  expand : α → α
  isAdd : α → Bool
  asOrderedTerms : α → List α
  simplifyDiv : α → α → PyResult α
  limit : α → PyResult LimitVal
  evalfMillion : α → PyResult ℚ
  sympify : String → PyResult α
  addTermsNonempty : ∀ a, isAdd a = true → asOrderedTerms a ≠ []

/-- `parse_function` (src/Complexity_Compass.py lines 19-24): run `sympify`
under try/except, returning `None` on any failure. -/
def parse_function {α : Type} (E : SymEngine α) (func_str : String) : Option α :=
  match E.sympify func_str with
  | .ok f => some f
  | .error _ => none

/-- One iteration of the comparison loop of `dominant_term`
(src/Complexity_Compass.py lines 35-48): compare term `t` against the current
candidate `dom`.  First try the symbolic limit of `t / dom`; if it computes
and is infinite, `t` becomes the candidate.  If it raises, fall back to
numeric evaluation at n = 10^6 of both terms, preferring `t` exactly when its
value is strictly greater; if that raises too, keep `dom`. -/
def dominant_step {α : Type} (E : SymEngine α) (dom t : α) : α :=
  match (E.simplifyDiv t dom).bind E.limit with
  | .ok L => if L.isInfinite then t else dom
  | .error _ =>
    match E.evalfMillion t, E.evalfMillion dom with
    | .ok t_val, .ok dom_val => if dom_val < t_val then t else dom
    | _, _ => dom

/-- `dominant_term` (src/Complexity_Compass.py lines 27-50): normalize `f` by
`expand (simplify f)`; when the result is not an `Add`, return it simplified;
otherwise fold the comparison step over the ordered terms starting from the
first, and simplify the final candidate.  (The empty-terms branch is
unreachable: sympy guarantees `SymEngine.addTermsNonempty`.) -/
def dominant_term {α : Type} (E : SymEngine α) (f : α) : α :=
  if E.isAdd (E.expand (E.simplify f)) then
    match E.asOrderedTerms (E.expand (E.simplify f)) with
    | [] => E.simplify (E.expand (E.simplify f))
    | dom :: rest => E.simplify (rest.foldl (dominant_step E) dom)
  else
    E.simplify (E.expand (E.simplify f))

/-- `check_asymptotic_definitions` (src/Complexity_Compass.py lines 52-67):
compute `L = limit(simplify(f / g))`; branch on `L == 0`, then on the
truthiness of `getattr(L, "is_infinite", False)`; on any exception return the
all-false result with "undefined" witness fields. -/
def check_asymptotic_definitions {α : Type} (E : SymEngine α) (f g : α) :
    ClassificationResult :=
  match (E.simplifyDiv f g).bind E.limit with
  | .ok L =>
    if L.eqZero then
      ⟨true, false, false, L.str, L.str, "symbolic"⟩
    else if L.isInfinite then
      ⟨false, true, false, L.str, L.str, "symbolic"⟩
    else
      ⟨true, true, true, L.str, L.str, "symbolic"⟩
  | .error _ =>
    ⟨false, false, false, "undefined", "undefined", "undefined"⟩

/-!
## A concrete engine

To exercise the theorems on concrete inputs we instantiate the interface on a
small fragment of sympy's expression language: formal sums of terms c·n^k
(c and k integers), together with two markers for expressions outside the
fragment: `osc`, an oscillating term on which the symbolic `limit` raises but
whose numeric evaluation succeeds (the spec, sections 8.9 and 4.1, uses such
terms), and `bad`, an expression on which both the symbolic limit and the
numeric evaluation raise.  Operations whose sympy result would leave the
fragment (inexact coefficient division, evaluation of negative powers) are
modelled as failures; the claims only quantify over the outcomes the interface
exposes, so the fragment only has to realize each outcome, which it does.
-/

/-- Expressions of the concrete fragment: `poly ts` is the sum of the terms
`c * n^k` for `(c, k)` in `ts`; `osc` and `bad` are the two markers. -/
inductive CExpr where
  | poly (ts : List (ℤ × ℤ))
  | osc
  | bad
deriving DecidableEq, Repr

/-- Insert a term `c * n^k` into a list of terms sorted by strictly decreasing
exponent, merging coefficients of equal exponents. -/
def insertMerge (c k : ℤ) : List (ℤ × ℤ) → List (ℤ × ℤ)
  | [] => [(c, k)]
  | (c1, k1) :: ts =>
    if k1 < k then (c, k) :: (c1, k1) :: ts
    else if k = k1 then (c + c1, k) :: ts
    else (c1, k1) :: insertMerge c k ts

/-- Canonical form of a term list: merge equal exponents, sort by decreasing
exponent, drop zero coefficients (the form sympy's simplification produces on
this fragment). -/
def normTerms (ts : List (ℤ × ℤ)) : List (ℤ × ℤ) :=
  (ts.foldr (fun t acc => insertMerge t.1 t.2 acc) []).filter
    (fun t => decide (t.1 ≠ 0))

/-- The limit value 0 (sympy's `Integer(0)`): equals 0 and is not infinite. -/
def limZero : LimitVal := ⟨true, false, "0", fun _ => rfl⟩

/-- The limit value +∞ (sympy's `oo`). -/
def limOo : LimitVal := ⟨false, true, "oo", fun h => nomatch h⟩

/-- The limit value -∞ (sympy's `-oo`). -/
def limNegOo : LimitVal := ⟨false, true, "-oo", fun h => nomatch h⟩

/-- A finite nonzero limit value `c`, printed as sympy prints numbers. -/
def limFin (c : ℤ) : LimitVal := ⟨false, false, toString c, fun h => nomatch h⟩

/-- The limit value 1, as produced by `limit(1, n, oo)`. -/
def limOne : LimitVal := ⟨false, false, "1", fun h => nomatch h⟩

/-- Concrete `simplify` on the fragment: canonicalize the term list. -/
def csimplify : CExpr → CExpr
  | .poly ts => .poly (normTerms ts)
  | .osc => .osc
  | .bad => .bad

/-- Concrete `simplify (a / b)` on the fragment: defined when the divisor is a
single nonzero term whose coefficient divides every coefficient of the
dividend (divide termwise) or, for `osc`, when the divisor is the constant 1;
everything else leaves the fragment and is modelled as a failure. -/
def csimplifyDiv : CExpr → CExpr → PyResult CExpr
  | .poly ts, .poly us =>
    match normTerms us with
    | [(c, k)] =>
      if ts.all fun t => decide (t.1 % c = 0) then
        .ok (.poly (normTerms (ts.map fun t => (t.1 / c, t.2 - k))))
      else
        .error ()
    | _ => .error ()
  | .osc, .poly us =>
    match normTerms us with
    | [(c, k)] => if c = 1 ∧ k = 0 then .ok .osc else .error ()
    | _ => .error ()
  | _, _ => .error ()

/-- Concrete `limit` at n → ∞ on the fragment.  A canonical term list is
sorted by decreasing exponent, so its head decides the limit: positive leading
exponent gives ±∞ by the sign of the coefficient, exponent 0 gives the
(nonzero) coefficient, negative leading exponent gives 0; the empty list is
the expression 0.  The limit of `osc` and `bad` raises. -/
def climit : CExpr → PyResult LimitVal
  | .poly ts =>
    match normTerms ts with
    | [] => .ok limZero
    | (c, k) :: _ =>
      if 0 < k then .ok (if 0 < c then limOo else limNegOo)
      else if k = 0 then .ok (limFin c)
      else .ok limZero
  | .osc => .error ()
  | .bad => .error ()

/-- Concrete `float(expr.subs(n, 10**6).evalf())` on the fragment: exact
evaluation at n = 10^6 for nonnegative powers (negative powers leave the
integer fragment and are modelled as failures); the oscillating marker
evaluates numerically to a sample value in [-1, 1]; `bad` raises. -/
def cevalfMillion : CExpr → PyResult ℚ
  | .poly ts =>
    if ts.all fun t => decide (0 ≤ t.2) then
      .ok ((ts.foldr (fun t acc => acc + t.1 * (1000000 : ℤ) ^ t.2.toNat) 0 : ℤ) : ℚ)
    else
      .error ()
  | .osc => .ok 0
  | .bad => .error ()

/-- Concrete parser: accepts only the bare variable "n" (enough to exercise
both outcomes of `parse_function`). -/
def csympify (s : String) : PyResult CExpr :=
  if s = "n" then .ok (.poly [(1, 1)]) else .error ()

/-- The concrete engine on the fragment. -/
def toyE : SymEngine CExpr where
  simplify := csimplify
  expand := fun e => e
  isAdd := fun e =>
    match e with
    | .poly ts => decide (2 ≤ ts.length)
    | _ => false
  asOrderedTerms := fun e =>
    match e with
    | .poly ts => ts.map fun t => .poly [t]
    | e1 => [e1]
  simplifyDiv := csimplifyDiv
  limit := climit
  evalfMillion := cevalfMillion
  sympify := csympify
  addTermsNonempty := by
    intro a h
    match a with
    | .poly ts =>
      simp only [decide_eq_true_eq] at h
      match ts with
      | [] => exact absurd h (by simp)
      | t :: ts1 => simp
    | .osc => simp
    | .bad => simp

/-- A second concrete engine on pure powers n^k (k an integer), on which the
self-ratio law of sympy holds exactly: n^a / n^b simplifies to n^(a-b) and the
limit of n^0 = 1 is 1. -/
def powE : SymEngine ℤ where
  simplify := fun k => k
  expand := fun k => k
  isAdd := fun _ => false
  asOrderedTerms := fun k => [k]
  simplifyDiv := fun a b => .ok (a - b)
  limit := fun k =>
    if 0 < k then .ok limOo
    else if k = 0 then .ok limOne
    else .ok limZero
  evalfMillion := fun k => .ok ((1000000 : ℚ) ^ k)
  sympify := fun _ => .error ()
  addTermsNonempty := by intro a h; exact absurd h (by simp)

/-!
## Claims
-/

/-- Named fragment expressions used to instantiate the theorems. -/
def eN : CExpr := CExpr.poly [(1, 1)]

/-- The expression n^2. -/
def eN2 : CExpr := CExpr.poly [(1, 2)]

/-- The expression n^3. -/
def eN3 : CExpr := CExpr.poly [(1, 3)]

/-- The expression 2 n. -/
def e2N : CExpr := CExpr.poly [(2, 1)]

/-- The constant expression 1. -/
def eOne : CExpr := CExpr.poly [(1, 0)]

/-- The expression n + n^2 (stored unsorted; simplification reorders). -/
def eSum : CExpr := CExpr.poly [(1, 1), (1, 2)]

/-- C1: if the simplified ratio f/g has a limit L at n→∞ with L == 0, the
classifier reports O = true, Omega = false, Theta = false. -/
theorem claim_C1 {α : Type} (E : SymEngine α) (f g : α) (L : LimitVal)
    (h : (E.simplifyDiv f g).bind E.limit = .ok L) (hz : L.eqZero = true) :
    (check_asymptotic_definitions E f g).O = true ∧
    (check_asymptotic_definitions E f g).Omega = false ∧
    (check_asymptotic_definitions E f g).Theta = false := by
  unfold check_asymptotic_definitions
  rw [h]
  simp [hz]

/-- Witness for C1 at f = n, g = n^2 on the concrete engine: the ratio is
n^(-1), whose limit is 0. -/
theorem claim_C1_witness :
    ((toyE.simplifyDiv eN eN2).bind toyE.limit = Except.ok limZero ∧
      limZero.eqZero = true) ∧
    ((check_asymptotic_definitions toyE eN eN2).O = true ∧
      (check_asymptotic_definitions toyE eN eN2).Omega = false ∧
      (check_asymptotic_definitions toyE eN eN2).Theta = false) :=
  ⟨⟨by decide, rfl⟩, claim_C1 toyE eN eN2 limZero (by decide) rfl⟩

/-- C2: if the limit L of the simplified ratio f/g at n→∞ is infinite, the
classifier reports O = false, Omega = true, Theta = false.  (An infinite
sympy value is not structurally equal to 0, so the first branch is not
taken: `LimitVal.zero_not_infinite`.) -/
theorem claim_C2 {α : Type} (E : SymEngine α) (f g : α) (L : LimitVal)
    (h : (E.simplifyDiv f g).bind E.limit = .ok L) (hinf : L.isInfinite = true) :
    (check_asymptotic_definitions E f g).O = false ∧
    (check_asymptotic_definitions E f g).Omega = true ∧
    (check_asymptotic_definitions E f g).Theta = false := by
  have hz : L.eqZero = false := by
    cases heq : L.eqZero
    · rfl
    · rw [L.zero_not_infinite heq] at hinf
      exact absurd hinf (by simp)
  unfold check_asymptotic_definitions
  rw [h]
  simp [hz, hinf]

/-- Witness for C2 at f = n^3, g = n on the concrete engine: the ratio is
n^2, whose limit is +∞. -/
theorem claim_C2_witness :
    ((toyE.simplifyDiv eN3 eN).bind toyE.limit = Except.ok limOo ∧
      limOo.isInfinite = true) ∧
    ((check_asymptotic_definitions toyE eN3 eN).O = false ∧
      (check_asymptotic_definitions toyE eN3 eN).Omega = true ∧
      (check_asymptotic_definitions toyE eN3 eN).Theta = false) :=
  ⟨⟨by decide, rfl⟩, claim_C2 toyE eN3 eN limOo (by decide) rfl⟩

/-- C3: if the limit L of the simplified ratio f/g at n→∞ is finite (not
infinite by sympy's `is_infinite` attribute, which also covers non-real and
unknown cases, both falsy) and nonzero, the classifier reports O, Omega and
Theta all true, with c_O and c_Omega the string form of L and n0 the literal
string "symbolic". -/
theorem claim_C3 {α : Type} (E : SymEngine α) (f g : α) (L : LimitVal)
    (h : (E.simplifyDiv f g).bind E.limit = .ok L) (hz : L.eqZero = false)
    (hinf : L.isInfinite = false) :
    check_asymptotic_definitions E f g =
      ⟨true, true, true, L.str, L.str, "symbolic"⟩ := by
  unfold check_asymptotic_definitions
  rw [h]
  simp [hz, hinf]

/-- Witness for C3 at f = 2n, g = n on the concrete engine: the ratio is the
constant 2, whose limit is 2 with string form "2". -/
theorem claim_C3_witness :
    ((toyE.simplifyDiv e2N eN).bind toyE.limit = Except.ok (limFin 2) ∧
      (limFin 2).eqZero = false ∧ (limFin 2).isInfinite = false) ∧
    check_asymptotic_definitions toyE e2N eN =
      ⟨true, true, true, "2", "2", "symbolic"⟩ :=
  ⟨⟨by decide, rfl, rfl⟩,
    (claim_C3 toyE e2N eN (limFin 2) (by decide) rfl rfl).trans (by decide)⟩

/-- C4: if computing the simplified ratio f/g or its limit raises, the
classifier catches the exception and returns all three flags false with c_O,
c_Omega and n0 all the literal string "undefined". -/
theorem claim_C4 {α : Type} (E : SymEngine α) (f g : α)
    (h : (E.simplifyDiv f g).bind E.limit = .error ()) :
    check_asymptotic_definitions E f g =
      ⟨false, false, false, "undefined", "undefined", "undefined"⟩ := by
  unfold check_asymptotic_definitions
  rw [h]

/-- Witness for C4 at f = osc (an oscillating term), g = 1 on the concrete
engine: the ratio computes to osc, whose limit raises. -/
theorem claim_C4_witness :
    (toyE.simplifyDiv CExpr.osc eOne).bind toyE.limit = Except.error () ∧
    check_asymptotic_definitions toyE CExpr.osc eOne =
      ⟨false, false, false, "undefined", "undefined", "undefined"⟩ :=
  ⟨by decide, claim_C4 toyE CExpr.osc eOne (by decide)⟩

/-- C9: on every input and along every branch, the classifier's result
satisfies Theta = (O and Omega) and has c_O equal to c_Omega. -/
theorem claim_C9 {α : Type} (E : SymEngine α) (f g : α) :
    (check_asymptotic_definitions E f g).Theta =
      ((check_asymptotic_definitions E f g).O &&
        (check_asymptotic_definitions E f g).Omega) ∧
    (check_asymptotic_definitions E f g).c_O =
      (check_asymptotic_definitions E f g).c_Omega := by
  unfold check_asymptotic_definitions
  cases (E.simplifyDiv f g).bind E.limit with
  | ok L => cases hz : L.eqZero <;> cases hinf : L.isInfinite <;> simp [hz, hinf]
  | error e => simp

/-- C10: `parse_function` is total — it returns the parsed expression when
`sympify` succeeds and `none` when `sympify` raises, and its return type has
no exception channel, so no exception propagates to the caller. -/
theorem claim_C10 {α : Type} (E : SymEngine α) (s : String) :
    parse_function E s = (E.sympify s).toOption := by
  unfold parse_function
  cases E.sympify s <;> rfl

/-- Helper: one comparison step either keeps the current candidate or moves to
the compared term — it never produces anything else. -/
theorem dominant_step_eq_or {α : Type} (E : SymEngine α) (dom t : α) :
    dominant_step E dom t = dom ∨ dominant_step E dom t = t := by
  unfold dominant_step
  cases (E.simplifyDiv t dom).bind E.limit with
  | ok L => cases hI : L.isInfinite <;> simp [hI]
  | error e =>
    cases E.evalfMillion t with
    | ok t_val =>
      cases E.evalfMillion dom with
      | ok dom_val =>
        dsimp only
        by_cases h : dom_val < t_val <;> simp [h]
      | error e2 => simp
    | error e1 => simp

/-- Helper: the fold of the comparison step over a term list lands on the
initial candidate or one of the terms. -/
theorem foldl_dominant_step_mem {α : Type} (E : SymEngine α) :
    ∀ (rest : List α) (dom : α), rest.foldl (dominant_step E) dom ∈ dom :: rest := by
  intro rest
  induction rest with
  | nil => intro dom; simp
  | cons t ts ih =>
    intro dom
    have h1 := ih (dominant_step E dom t)
    rcases dominant_step_eq_or E dom t with h2 | h2 <;>
      rw [h2] at h1 <;> simp only [List.foldl_cons, h2, List.mem_cons] at * <;> tauto

/-- C5: the comparison loop of `dominant_term` works step by step as
specified.  First conjunct: when the symbolic limit of t/dom computes, t
replaces dom exactly when the limit is infinite.  Second conjunct: when the
symbolic limit raises, the numeric fallback at n = 10^6 decides by strict
comparison of the two values, and if that raises as well (either evaluation
failing) the candidate is kept — nothing escapes, by totality of
`dominant_step`.  Third conjunct: on a sum, `dominant_term` is exactly the
fold of this step over the subsequent terms, started at the first term. -/
theorem claim_C5 {α : Type} (E : SymEngine α) :
    (∀ dom t L, (E.simplifyDiv t dom).bind E.limit = .ok L →
        dominant_step E dom t = if L.isInfinite then t else dom) ∧
    (∀ dom t, (E.simplifyDiv t dom).bind E.limit = .error () →
        (∀ t_val dom_val, E.evalfMillion t = .ok t_val →
            E.evalfMillion dom = .ok dom_val →
            dominant_step E dom t = if dom_val < t_val then t else dom) ∧
        ((E.evalfMillion t = .error () ∨ E.evalfMillion dom = .error ()) →
            dominant_step E dom t = dom)) ∧
    (∀ f dom rest, E.isAdd (E.expand (E.simplify f)) = true →
        E.asOrderedTerms (E.expand (E.simplify f)) = dom :: rest →
        dominant_term E f = E.simplify (rest.foldl (dominant_step E) dom)) := by
  refine ⟨?_, ?_, ?_⟩
  · intro dom t L h
    unfold dominant_step
    rw [h]
  · intro dom t h
    constructor
    · intro t_val dom_val ht hd
      unfold dominant_step
      rw [h, ht, hd]
    · intro hcase
      unfold dominant_step
      rw [h]
      rcases hcase with he | he
      · rw [he]
      · rw [he]
        cases E.evalfMillion t <;> rfl
  · intro f dom rest hAdd hterms
    unfold dominant_term
    rw [hAdd, hterms]
    simp

/-- Witness for C5 on the concrete engine: n^3 displaces n because the limit
of n^3/n = n^2 is infinite; the oscillating term osc makes the limit raise,
falls back to the values 0 and 10^6 at n = 10^6 and does not displace n; bad
makes both strategies raise and the candidate n is kept; and on n + n^2 the
extractor is the fold of the step over the ordered terms. -/
theorem claim_C5_witness :
    ((toyE.simplifyDiv eN3 eN).bind toyE.limit = Except.ok limOo ∧
      dominant_step toyE eN eN3 = eN3) ∧
    ((toyE.simplifyDiv CExpr.osc eN).bind toyE.limit = Except.error () ∧
      toyE.evalfMillion CExpr.osc = Except.ok 0 ∧
      toyE.evalfMillion eN = Except.ok ((1000000 : ℤ) : ℚ) ∧
      dominant_step toyE eN CExpr.osc = eN) ∧
    ((toyE.simplifyDiv CExpr.bad eN).bind toyE.limit = Except.error () ∧
      toyE.evalfMillion CExpr.bad = Except.error () ∧
      dominant_step toyE eN CExpr.bad = eN) ∧
    (toyE.isAdd (toyE.expand (toyE.simplify eSum)) = true ∧
      toyE.asOrderedTerms (toyE.expand (toyE.simplify eSum)) = [eN2, eN] ∧
      dominant_term toyE eSum = toyE.simplify ([eN].foldl (dominant_step toyE) eN2)) := by
  have hC5 := claim_C5 toyE
  refine ⟨⟨?_, ?_⟩, ⟨?_, ?_, ?_, ?_⟩, ⟨?_, ?_, ?_⟩, ?_, ?_, ?_⟩
  · decide
  · have h := hC5.1 eN eN3 limOo (by decide)
    simpa using h
  · decide
  · decide
  · decide
  · have h := (hC5.2.1 eN CExpr.osc (by decide)).1 0 ((1000000 : ℤ) : ℚ)
        (by decide) (by decide)
    simpa using h
  · decide
  · decide
  · exact (hC5.2.1 eN CExpr.bad (by decide)).2 (Or.inl (by decide))
  · decide
  · decide
  · exact hC5.2.2 eSum eN2 [eN] (by decide) (by decide)

/-- C6: the dominant term returned by `dominant_term` is (up to the final
simplification the code applies) one of the ordered additive terms of the
normalized input, or the normalized input itself when it is not a sum; no new
term is synthesized. -/
theorem claim_C6 {α : Type} (E : SymEngine α) (f : α) :
    (E.isAdd (E.expand (E.simplify f)) = true →
      ∃ t, t ∈ E.asOrderedTerms (E.expand (E.simplify f)) ∧
        dominant_term E f = E.simplify t) ∧
    (E.isAdd (E.expand (E.simplify f)) = false →
      dominant_term E f = E.simplify (E.expand (E.simplify f))) := by
  constructor
  · intro hAdd
    have hne := E.addTermsNonempty _ hAdd
    unfold dominant_term
    rw [hAdd]
    cases hterms : E.asOrderedTerms (E.expand (E.simplify f)) with
    | nil => exact absurd hterms hne
    | cons dom rest =>
      refine ⟨rest.foldl (dominant_step E) dom, ?_, by simp⟩
      exact foldl_dominant_step_mem E rest dom
  · intro hAdd
    unfold dominant_term
    rw [hAdd]
    simp

/-- Witness for C6 at f = n + n^2 on the concrete engine: the returned
dominant term is the ordered term n^2 of the normalized sum. -/
theorem claim_C6_witness :
    toyE.isAdd (toyE.expand (toyE.simplify eSum)) = true ∧
    ∃ t, t ∈ toyE.asOrderedTerms (toyE.expand (toyE.simplify eSum)) ∧
      dominant_term toyE eSum = toyE.simplify t :=
  ⟨by decide, (claim_C6 toyE eSum).1 (by decide)⟩

/-- C7: when the normalized form `expand (simplify f)` is not a sum,
`dominant_term` returns it simplified as-is (first conjunct, for every
engine); in particular on the concrete engine every monomial n^k is returned
unchanged (second conjunct). -/
theorem claim_C7 :
    (∀ {α : Type} (E : SymEngine α) (f : α),
        E.isAdd (E.expand (E.simplify f)) = false →
        dominant_term E f = E.simplify (E.expand (E.simplify f))) ∧
    (∀ k : ℤ, 0 < k →
        dominant_term toyE (CExpr.poly [(1, k)]) = CExpr.poly [(1, k)]) := by
  constructor
  · intro α E f h
    unfold dominant_term
    rw [h]
    simp
  · intro k hk
    rfl

/-- Witness for C7: the oscillating marker is not a sum and is returned
simplified as-is, and the monomial n^3 is its own dominant term. -/
theorem claim_C7_witness :
    (toyE.isAdd (toyE.expand (toyE.simplify CExpr.osc)) = false ∧
      dominant_term toyE CExpr.osc =
        toyE.simplify (toyE.expand (toyE.simplify CExpr.osc))) ∧
    ((0 : ℤ) < 3 ∧ dominant_term toyE (CExpr.poly [(1, 3)]) = CExpr.poly [(1, 3)]) :=
  ⟨⟨by decide, claim_C7.1 toyE CExpr.osc (by decide)⟩,
    ⟨by decide, claim_C7.2 3 (by decide)⟩⟩

/-- Modelled from the spec: the self-ratio law of the external symbolic
engine.  sympy's `simplify` and `limit` are library code outside this
repository's sources; the spec (sections 2 and 8.5) describes the engine by
interface and asserts that for the self-ratio f/f the computed limit L is
always 1.  The law states exactly that: `simplify (f / f)` succeeds and its
limit is the value 1. -/
def selfRatioLimitOne {α : Type} (E : SymEngine α) : Prop :=
  ∀ f : α, ∃ r, E.simplifyDiv f f = .ok r ∧ E.limit r = .ok limOne

/-- C8: under the self-ratio law, `check_asymptotic_definitions (f, f)` takes
the finite-nonzero branch on L = 1 and returns O, Omega, Theta all true with
witness fields "1" and n0 = "symbolic". -/
theorem claim_C8 {α : Type} (E : SymEngine α) (hE : selfRatioLimitOne E)
    (f : α) :
    check_asymptotic_definitions E f f =
      ⟨true, true, true, "1", "1", "symbolic"⟩ := by
  obtain ⟨r, h1, h2⟩ := hE f
  unfold check_asymptotic_definitions
  rw [show (E.simplifyDiv f f).bind E.limit = .ok limOne by rw [h1]; exact h2]
  rfl

/-- Witness for C8 on the pure-power engine (where the self-ratio law holds
exactly: n^k / n^k = n^0 = 1), at f = n^3. -/
theorem claim_C8_witness :
    selfRatioLimitOne powE ∧
    check_asymptotic_definitions powE 3 3 =
      ⟨true, true, true, "1", "1", "symbolic"⟩ := by
  have hE : selfRatioLimitOne powE := by
    intro k
    refine ⟨k - k, rfl, ?_⟩
    have hk : k - k = 0 := by omega
    rw [hk]
    rfl
  exact ⟨hE, claim_C8 powE hE 3⟩
